import Mathlib

/-!
Verification of the report parser of `gnatprove2xls.py`.

The parser (`parse_gnatprove_report`) reads a GNATprove report line by line,
matching each line against a fixed set of regular expressions, and builds a
nested `Report` / `Unit` / `Item` / `Suppression` model.

The embedding below models:
  * each compiled regular expression of the source as an executable matcher
    over `List Char`, with Python's leftmost / greedy backtracking semantics
    (`re.match` is anchored at the start, `re.search` scans for the leftmost
    position; `.` matches any character except a newline; `\d` is modelled as
    an ASCII decimal digit, and `$` as end of the newline-stripped line);
  * the per-line body of the parsing loop (`processLine`), threading the
    mutable state of the source (the `results` dictionary and `currentUnit`);
  * Python runtime faults (`None` subscription at `currentUnit['items']`,
    `[-1]` indexing of an empty list) as `Except ParseError`;
  * the helper `to_percent`, with Python's `/` modelled as exact division
    over `ℚ`.
-/

namespace Gnatprove

/-- Value of `int(s)` on a captured string of decimal digits. -/
def natOfDigits (l : List Char) : Nat :=
  l.foldl (fun n c => 10 * n + (c.toNat - '0'.toNat)) 0

/-- Python `str.strip()`: remove leading and trailing whitespace. -/
def stripChars (l : List Char) : List Char :=
  ((l.dropWhile Char.isWhitespace).reverse.dropWhile Char.isWhitespace).reverse

/-- Match a literal fragment of a pattern, then continue with `tail`. -/
def lit {α : Type} : List Char → (List Char → Option α) → List Char → Option α
  | [], tail, s => tail s
  | _ :: _, _, [] => none
  | p :: ps, tail, c :: cs => if c = p then lit ps tail cs else none

/-- Greedy `(.+)`: longest non-empty group of non-newline characters such
that `tail` matches the remainder, trying longer groups first (Python's
backtracking order). Returns the group and the result of `tail`. -/
def dotPlus {α : Type} (tail : List Char → Option α) : List Char → Option (List Char × α)
  | [] => none
  | c :: cs =>
    if c = '\n' then none
    else
      match dotPlus tail cs with
      | some (g, a) => some (c :: g, a)
      | none =>
        match tail cs with
        | some a => some ([c], a)
        | none => none

/-- Greedy `(\d+)`: longest non-empty group of decimal digits such that
`tail` matches the remainder, trying longer groups first. -/
def digPlus {α : Type} (tail : List Char → Option α) : List Char → Option (List Char × α)
  | [] => none
  | c :: cs =>
    if c.isDigit then
      match digPlus tail cs with
      | some (g, a) => some (c :: g, a)
      | none =>
        match tail cs with
        | some a => some ([c], a)
        | none => none
    else none

/-- `$`: succeeds only at the end of the (newline-stripped) line. -/
def endAnchor (s : List Char) : Option Unit :=
  match s with
  | [] => some ()
  | _ :: _ => none

/-- An unanchored pattern end: the rest of the line is ignored. -/
def anyTail (_ : List Char) : Option Unit :=
  some ()

/-- `re.search`: try the pattern body at each position, leftmost first. -/
def searchFrom {α : Type} (m : List Char → Option α) : List Char → Option α
  | [] => m []
  | c :: cs =>
    match m (c :: cs) with
    | some a => some a
    | none => searchFrom m cs

/-- `analysis_re = r'^Analyzed (\d+) units$'`, used with `re.match`. -/
def analysis_re (s : List Char) : Option (List Char) :=
  (lit "Analyzed ".data (digPlus (lit " units".data endAnchor)) s).map (fun r => r.1)

/-- `unit_re = r'^in unit (.+), (\d+) subprograms and packages out of (\d+) analyzed$'`,
used with `re.match`. Groups: name, analyzed count, total count. -/
def unit_re (s : List Char) : Option (List Char × List Char × List Char) :=
  (lit "in unit ".data
    (dotPlus (lit ", ".data
      (digPlus (lit " subprograms and packages out of ".data
        (digPlus (lit " analyzed".data endAnchor)))))) s).map
    (fun r => (r.1, r.2.1, r.2.2.1))

/-- `file_re = r'^  (.+) at (.+):(\d+)'`, used with `re.match`.
Groups: item name, file name, line number. -/
def file_re (s : List Char) : Option (List Char × List Char × List Char) :=
  (lit "  ".data
    (dotPlus (lit " at ".data
      (dotPlus (lit ":".data
        (digPlus anyTail))))) s).map
    (fun r => (r.1, r.2.1, r.2.2.1))

/-- `gen_file_re = r'^  (.+) at (.+):(\d+), instantiated at (.+):(\d+)'`,
used with `re.match`. Groups: name, file, line, instantiation file and line. -/
def gen_file_re (s : List Char) :
    Option (List Char × List Char × List Char × List Char × List Char) :=
  let raw := lit "  ".data
    (dotPlus (lit " at ".data
      (dotPlus (lit ":".data
        (digPlus (lit ", instantiated at ".data
          (dotPlus (lit ":".data
            (digPlus anyTail))))))))) s
  raw.map (fun r => (r.1, r.2.1, r.2.2.1, r.2.2.2.1, r.2.2.2.2.1))

/-- `flow_re = r'flow analyzed \((\d+) errors and (\d+) warnings\)'`,
used with `re.search`. Groups: error count, warning count. -/
def flow_re (s : List Char) : Option (List Char × List Char) :=
  (searchFrom
    (lit "flow analyzed (".data
      (digPlus (lit " errors and ".data
        (digPlus (lit " warnings)".data anyTail))))) s).map
    (fun r => (r.1, r.2.1))

/-- `proved_re = r'proved \((\d+) checks\)$'`, used with `re.search`.
Group: check count. -/
def proved_re (s : List Char) : Option (List Char) :=
  (searchFrom
    (lit "proved (".data
      (digPlus (lit " checks)".data endAnchor))) s).map
    (fun r => r.1)

/-- `not_proved_re = r'not proved, (\d+) checks out of (\d+) proved$'`,
used with `re.search`. Groups: proved count, total count. -/
def not_proved_re (s : List Char) : Option (List Char × List Char) :=
  (searchFrom
    (lit "not proved, ".data
      (digPlus (lit " checks out of ".data
        (digPlus (lit " proved".data endAnchor))))) s).map
    (fun r => (r.1, r.2.1))

/-- `suppr_msg_re = r'^    (.+):(\d+):(\d+): (.+)$'`, used with `re.match`.
Groups: file, line, column, message. -/
def suppr_msg_re (s : List Char) :
    Option (List Char × List Char × List Char × List Char) :=
  let raw := lit "    ".data
    (dotPlus (lit ":".data
      (digPlus (lit ":".data
        (digPlus (lit ": ".data
          (dotPlus endAnchor))))))) s
  raw.map (fun r => (r.1, r.2.1, r.2.2.1, r.2.2.2.1))

/-- A suppressed-message record; all captured groups are kept as strings,
the message is stripped of surrounding whitespace. -/
structure Suppression where
  fileName : List Char
  lineNumber : List Char
  column : List Char
  message : List Char
deriving DecidableEq, Repr

/-- One analyzed entity. The source stores `lineNumber` (and the
instantiation fields) as the captured strings, and the counts as integers. -/
structure Item where
  name : List Char
  fileName : List Char
  lineNumber : List Char
  instFileName : Option (List Char)
  instLineNumber : Option (List Char)
  suppressions : List Suppression
  numFlowErrors : Nat
  numFlowWarnings : Nat
  numChecks : Nat
  numProvedChecks : Nat
  flowAnalyzed : Bool
  proved : Bool
deriving DecidableEq, Repr

/-- One compilation unit of the report. -/
structure Unit where
  name : List Char
  numAnalyzed : Nat
  numTotal : Nat
  items : List Item
deriving DecidableEq, Repr

/-- The `results` dictionary returned by `parse_gnatprove_report`. -/
structure Report where
  numUnitsAnalyzed : Option Nat
  units : List Unit
deriving DecidableEq, Repr

/-- The parser state while looping over the lines: the `results` dictionary
under construction together with the `currentUnit` variable. -/
structure PState where
  numUnitsAnalyzed : Option Nat
  units : List Unit
  currentUnit : Option Unit
deriving DecidableEq, Repr

/-- Python runtime faults that abort `parse_gnatprove_report`:
* `itemWithoutUnit`: `currentUnit['items'].append(item)` with `currentUnit`
  still `None` (a `TypeError`);
* `suppressionWithoutUnit`: `currentUnit['items'][-1]` with `currentUnit`
  still `None` (a `TypeError`);
* `suppressionWithoutItem`: `currentUnit['items'][-1]` on an empty item
  list (an `IndexError`). -/
inductive ParseError where
  | itemWithoutUnit
  | suppressionWithoutUnit
  | suppressionWithoutItem
deriving DecidableEq, Repr

/-- `currentUnit['items'][-1]['suppressions'].append(s)`: append `s` to the
suppression list of the last item; `none` when the item list is empty
(Python raises `IndexError`). -/
def setLastSuppr (s : Suppression) : List Item → Option (List Item)
  | [] => none
  | [i] => some [{ i with suppressions := i.suppressions ++ [s] }]
  | i :: i' :: is =>
    (setLastSuppr s (i' :: is)).map (fun r => i :: r)

/-- The item dictionary as first built in the loop body, before the three
trailing clauses are tried: all counts zero, both flags false. -/
def initItem (n f ln : List Char) (instF instL : Option (List Char)) : Item :=
  { name := n, fileName := f, lineNumber := ln,
    instFileName := instF, instLineNumber := instL,
    suppressions := [],
    numFlowErrors := 0, numFlowWarnings := 0,
    numChecks := 0, numProvedChecks := 0,
    flowAnalyzed := false, proved := false }

/-- The `if file_match or gen_file_match` block's item construction: the
generic-instantiation groups are used when `gen_file_re` matches, else the
plain `file_re` groups; `none` when neither matches. -/
def mkItemFromLine (line : List Char) : Option Item :=
  match gen_file_re line with
  | some (n, f, ln, gf, gl) => some (initItem n f ln (some gf) (some gl))
  | none =>
    match file_re line with
    | some (n, f, ln) => some (initItem n f ln none none)
    | none => none

/-- The three trailing-clause searches of the loop body, applied in source
order (`flow_re`, then `proved_re`, then `not_proved_re`), each updating the
fresh item when it matches. -/
def applyClauses (line : List Char) (item : Item) : Item :=
  let item :=
    match flow_re line with
    | some (e, w) =>
      { item with flowAnalyzed := true,
                  numFlowErrors := natOfDigits e,
                  numFlowWarnings := natOfDigits w }
    | none => item
  let item :=
    match proved_re line with
    | some c =>
      { item with proved := true,
                  numChecks := natOfDigits c,
                  numProvedChecks := natOfDigits c }
    | none => item
  match not_proved_re line with
  | some (p, c) =>
    { item with proved := true,
                numChecks := natOfDigits c,
                numProvedChecks := natOfDigits p }
  | none => item

/-- Block 1 of the loop body: `analysis_re.match(line)` sets
`results['numUnitsAnalyzed']`. -/
def analysisStepP (line : List Char) (st : PState) : PState :=
  match analysis_re line with
  | some ds => { st with numUnitsAnalyzed := some (natOfDigits ds) }
  | none => st

/-- Block 2 of the loop body: `unit_re.match(line)` seals the previous
`currentUnit` (if any) into `results['units']` and starts a new one. -/
def unitStepP (line : List Char) (st : PState) : PState :=
  match unit_re line with
  | some (n, a, t) =>
    { st with
      units :=
        match st.currentUnit with
        | some u => st.units ++ [u]
        | none => st.units,
      currentUnit :=
        some { name := n, numAnalyzed := natOfDigits a,
               numTotal := natOfDigits t, items := [] } }
  | none => st

/-- Block 3 of the loop body: on an item-shaped line, build the item, apply
the trailing clauses and append it to `currentUnit['items']`; a `None`
`currentUnit` is a fatal `TypeError`. -/
def itemStepP (line : List Char) (st : PState) : Except ParseError PState :=
  match mkItemFromLine line with
  | some item =>
    match st.currentUnit with
    | none => .error .itemWithoutUnit
    | some u =>
      let u' : Unit := { u with items := u.items ++ [applyClauses line item] }
      .ok { st with currentUnit := some u' }
  | none => .ok st

/-- Block 4 of the loop body: on a suppression-shaped line, append the
suppression to the last item of `currentUnit`; fatal when `currentUnit` is
`None` or its item list is empty. -/
def supprStepP (line : List Char) (st : PState) : Except ParseError PState :=
  match suppr_msg_re line with
  | some (f, ln, col, m) =>
    match st.currentUnit with
    | none => .error .suppressionWithoutUnit
    | some u =>
      match setLastSuppr
          { fileName := f, lineNumber := ln, column := col,
            message := stripChars m } u.items with
      | none => .error .suppressionWithoutItem
      | some items =>
        let u' : Unit := { u with items := items }
        .ok { st with currentUnit := some u' }
  | none => .ok st

/-- One iteration of `for line in file`: the four blocks in source order.
All four pattern tests are independent (the source uses separate `if`
statements, not `elif`). -/
def processLine (st : PState) (line : List Char) : Except ParseError PState :=
  match itemStepP line (unitStepP line (analysisStepP line st)) with
  | .error e => .error e
  | .ok st' => supprStepP line st'

/-- The whole `for line in file` loop. -/
def runLines (st : PState) : List (List Char) → Except ParseError PState
  | [] => .ok st
  | l :: ls =>
    match processLine st l with
    | .error e => .error e
    | .ok st' => runLines st' ls

/-- `parse_gnatprove_report`, on the file's newline-stripped lines: run the
loop from the initial `results` dictionary, then seal a still-open
`currentUnit`. -/
def parse_gnatprove_report (lines : List (List Char)) : Except ParseError Report :=
  match runLines { numUnitsAnalyzed := none, units := [], currentUnit := none } lines with
  | .error e => .error e
  | .ok st => .ok { numUnitsAnalyzed := st.numUnitsAnalyzed,
                    units := st.units ++ st.currentUnit.toList }

/-- `to_percent`: Python's true division `/` modelled exactly over `ℚ`. -/
def to_percent (num denom : ℚ) : ℚ :=
  if denom = 0 then 1 else num / denom

/-! ## A characterization of the loop body

The per-line behaviour factors through the `currentUnit` component alone:
the `units` list is only ever appended to (by sealing), the summary count is
updated independently, and whether a line faults depends only on the line
and `currentUnit`. The functions below capture this factored form; the
`processLine_eq` equation proves it against the definition above. -/

/-- Effect of a line on `results['numUnitsAnalyzed']`. -/
def numStep (line : List Char) (n : Option Nat) : Option Nat :=
  match analysis_re line with
  | some ds => some (natOfDigits ds)
  | none => n

/-- Effect of a unit-header line on `currentUnit`: the sealed units (to be
appended to `results['units']`) and the new `currentUnit`. -/
def unitStep (line : List Char) (cu : Option Unit) : List Unit × Option Unit :=
  match unit_re line with
  | some (n, a, t) =>
    (cu.toList,
     some { name := n, numAnalyzed := natOfDigits a,
            numTotal := natOfDigits t, items := [] })
  | none => ([], cu)

/-- Effect of an item-shaped line on `currentUnit`. -/
def itemStep (line : List Char) (cu : Option Unit) : Except ParseError (Option Unit) :=
  match mkItemFromLine line with
  | some item =>
    match cu with
    | none => .error .itemWithoutUnit
    | some u => .ok (some { u with items := u.items ++ [applyClauses line item] })
  | none => .ok cu

/-- Effect of a suppression-shaped line on `currentUnit`. -/
def supprCore (line : List Char) (cu : Option Unit) : Except ParseError (Option Unit) :=
  match suppr_msg_re line with
  | some (f, ln, col, m) =>
    match cu with
    | none => .error .suppressionWithoutUnit
    | some u =>
      match setLastSuppr
          { fileName := f, lineNumber := ln, column := col,
            message := stripChars m } u.items with
      | none => .error .suppressionWithoutItem
      | some items => .ok (some { u with items := items })
  | none => .ok cu

/-- The factored loop body: sealed units and the evolution of `currentUnit`. -/
def stepCore (line : List Char) (cu : Option Unit) :
    Except ParseError (List Unit × Option Unit) :=
  match itemStep line (unitStep line cu).2 with
  | .error e => .error e
  | .ok cu2 =>
    match supprCore line cu2 with
    | .error e => .error e
    | .ok cu3 => .ok ((unitStep line cu).1, cu3)

/-- The factored loop: concatenation of all sealed units and the final
`currentUnit`. -/
def runCore (cu : Option Unit) : List (List Char) → Except ParseError (List Unit × Option Unit)
  | [] => .ok ([], cu)
  | l :: ls =>
    match stepCore l cu with
    | .error e => .error e
    | .ok (d, cu') =>
      match runCore cu' ls with
      | .error e => .error e
      | .ok (d2, cu'') => .ok (d ++ d2, cu'')

/-- The summary count after a list of lines. -/
def numRun (ls : List (List Char)) (n : Option Nat) : Option Nat :=
  ls.foldl (fun a l => numStep l a) n

/-- The header data of a unit: the fields set by its unit-header line
(everything except the item list). -/
def unitKey (u : Unit) : List Char × Nat × Nat :=
  (u.name, u.numAnalyzed, u.numTotal)

/-- The header data a unit-header line's captured groups produce. -/
def headerKey (g : List Char × List Char × List Char) : List Char × Nat × Nat :=
  (g.1, natOfDigits g.2.1, natOfDigits g.2.2)

/-- The proof-related fields of an item. -/
def provedFields (it : Item) : Bool × Nat × Nat :=
  (it.proved, it.numChecks, it.numProvedChecks)

/-- The item a single line produces, trailing clauses applied. -/
def itemOfLine (l : List Char) : Option Item :=
  (mkItemFromLine l).map (applyClauses l)

/-- The items of an optional current unit. -/
def optItems (cu : Option Unit) : List Item :=
  match cu with
  | some u => u.items
  | none => []

theorem analysisStepP_eq (line : List Char) (st : PState) :
    analysisStepP line st =
      { st with numUnitsAnalyzed := numStep line st.numUnitsAnalyzed } := by
  unfold analysisStepP numStep
  cases analysis_re line <;> rfl

theorem unitStepP_eq (line : List Char) (st : PState) :
    unitStepP line st =
      { st with units := st.units ++ (unitStep line st.currentUnit).1,
                currentUnit := (unitStep line st.currentUnit).2 } := by
  unfold unitStepP unitStep
  cases h : unit_re line with
  | none => simp
  | some g =>
    obtain ⟨n, a, t⟩ := g
    cases st.currentUnit <;> simp [Option.toList]

theorem itemStepP_eq (line : List Char) (st : PState) :
    itemStepP line st =
      match itemStep line st.currentUnit with
      | .error e => .error e
      | .ok cu' => .ok { st with currentUnit := cu' } := by
  unfold itemStepP itemStep
  cases mkItemFromLine line with
  | none => rfl
  | some item => cases st.currentUnit <;> rfl

theorem supprStepP_eq (line : List Char) (st : PState) :
    supprStepP line st =
      match supprCore line st.currentUnit with
      | .error e => .error e
      | .ok cu' => .ok { st with currentUnit := cu' } := by
  cases h : suppr_msg_re line with
  | none =>
    simp [supprStepP, supprCore, h]
  | some g =>
    obtain ⟨f, ln, col, m⟩ := g
    cases hc : st.currentUnit with
    | none => simp [supprStepP, supprCore, h, hc]
    | some u =>
      cases hs : setLastSuppr
          { fileName := f, lineNumber := ln, column := col,
            message := stripChars m } u.items with
      | none => simp [supprStepP, supprCore, h, hc, hs]
      | some items => simp [supprStepP, supprCore, h, hc, hs]

/-- The loop body in factored form. -/
theorem processLine_eq (st : PState) (line : List Char) :
    processLine st line =
      match stepCore line st.currentUnit with
      | .error e => .error e
      | .ok (d, cu') =>
        .ok { numUnitsAnalyzed := numStep line st.numUnitsAnalyzed,
              units := st.units ++ d,
              currentUnit := cu' } := by
  obtain ⟨n, us, cu⟩ := st
  simp only [processLine, stepCore, analysisStepP_eq, unitStepP_eq, itemStepP_eq]
  cases h : itemStep line (unitStep line cu).2 with
  | error e => simp
  | ok cu2 =>
    dsimp only
    rw [supprStepP_eq]
    cases hs : supprCore line cu2 <;> simp

/-- The whole loop in factored form. -/
theorem runLines_eq (st : PState) (ls : List (List Char)) :
    runLines st ls =
      match runCore st.currentUnit ls with
      | .error e => .error e
      | .ok (d, cu') =>
        .ok { numUnitsAnalyzed := numRun ls st.numUnitsAnalyzed,
              units := st.units ++ d,
              currentUnit := cu' } := by
  induction ls generalizing st with
  | nil => simp [runLines, runCore, numRun]
  | cons l ls ih =>
    simp only [runLines]
    rw [processLine_eq]
    cases h : stepCore l st.currentUnit with
    | error e => simp [runCore, h]
    | ok p =>
      obtain ⟨d, cu'⟩ := p
      dsimp only
      rw [ih]
      simp only [runCore, h, numRun, List.foldl_cons]
      cases runCore cu' ls with
      | error e => rfl
      | ok p2 => obtain ⟨d2, cu''⟩ := p2; simp [List.append_assoc]

/-- `parse_gnatprove_report` in factored form. -/
theorem parse_eq (lines : List (List Char)) :
    parse_gnatprove_report lines =
      match runCore none lines with
      | .error e => .error e
      | .ok (d, cu') =>
        .ok { numUnitsAnalyzed := numRun lines none,
              units := d ++ cu'.toList } := by
  unfold parse_gnatprove_report
  rw [runLines_eq]
  cases runCore none lines with
  | error e => rfl
  | ok p => obtain ⟨d, cu'⟩ := p; simp

/-- `runCore` distributes over concatenation of line lists. -/
theorem runCore_append (cu : Option Unit) (xs ys : List (List Char)) :
    runCore cu (xs ++ ys) =
      match runCore cu xs with
      | .error e => .error e
      | .ok (d, cu') =>
        match runCore cu' ys with
        | .error e => .error e
        | .ok (d2, cu'') => .ok (d ++ d2, cu'') := by
  induction xs generalizing cu with
  | nil =>
    simp only [List.nil_append, runCore]
    cases hy : runCore cu ys with
    | error e => rfl
    | ok p => obtain ⟨d2, cu''⟩ := p; simp
  | cons l ls ih =>
    show runCore cu (l :: (ls ++ ys)) = _
    simp only [runCore]
    cases h : stepCore l cu with
    | error e => rfl
    | ok p =>
      obtain ⟨d, cu'⟩ := p
      dsimp only
      rw [ih]
      cases h2 : runCore cu' ls with
      | error e => rfl
      | ok p2 =>
        obtain ⟨d2, cu''⟩ := p2
        dsimp only
        cases h3 : runCore cu'' ys with
        | error e => rfl
        | ok p3 => obtain ⟨d3, cu'''⟩ := p3; simp [List.append_assoc]

/-! ## Shapes of successful matches -/

theorem lit_some {α : Type} {p : List Char} {tail : List Char → Option α}
    {s : List Char} {a : α} (h : lit p tail s = some a) :
    ∃ r, s = p ++ r ∧ tail r = some a := by
  induction p generalizing s with
  | nil => exact ⟨s, rfl, h⟩
  | cons c cs ih =>
    cases s with
    | nil => simp [lit] at h
    | cons x xs =>
      simp only [lit] at h
      split at h
      · next hx =>
        obtain ⟨r, hr, ht⟩ := ih h
        exact ⟨r, by simp [hx, hr], ht⟩
      · exact absurd h (by simp)

theorem digPlus_some {α : Type} {tail : List Char → Option α}
    {s : List Char} {g : List Char} {a : α} (h : digPlus tail s = some (g, a)) :
    g ≠ [] ∧ (∀ c ∈ g, c.isDigit) ∧ ∃ r, s = g ++ r ∧ tail r = some a := by
  induction s generalizing g a with
  | nil => simp [digPlus] at h
  | cons x xs ih =>
    simp only [digPlus] at h
    split at h
    · next hd =>
      cases hrec : digPlus tail xs with
      | some p =>
        obtain ⟨g', a'⟩ := p
        rw [hrec] at h
        simp only [Option.some.injEq, Prod.mk.injEq] at h
        obtain ⟨hg, ha⟩ := h
        obtain ⟨hne, hdig, r, hr, ht⟩ := ih hrec
        subst hg
        refine ⟨by simp, ?_, r, by simp [hr], by rw [← ha]; exact ht⟩
        intro c hc
        rcases List.mem_cons.mp hc with h1 | h2
        · subst h1; exact hd
        · exact hdig c h2
      | none =>
        rw [hrec] at h
        cases ht : tail xs with
        | some a' =>
          rw [ht] at h
          simp only [Option.some.injEq, Prod.mk.injEq] at h
          obtain ⟨hg, ha⟩ := h
          subst hg
          exact ⟨by simp, by simpa using hd, xs, rfl, by rw [← ha]; exact ht⟩
        | none => rw [ht] at h; exact absurd h (by simp)
    · exact absurd h (by simp)

theorem dotPlus_some {α : Type} {tail : List Char → Option α}
    {s : List Char} {g : List Char} {a : α} (h : dotPlus tail s = some (g, a)) :
    g ≠ [] ∧ ∃ r, s = g ++ r ∧ tail r = some a := by
  induction s generalizing g a with
  | nil => simp [dotPlus] at h
  | cons x xs ih =>
    simp only [dotPlus] at h
    split at h
    · exact absurd h (by simp)
    · cases hrec : dotPlus tail xs with
      | some p =>
        obtain ⟨g', a'⟩ := p
        rw [hrec] at h
        simp only [Option.some.injEq, Prod.mk.injEq] at h
        obtain ⟨hg, ha⟩ := h
        obtain ⟨hne, r, hr, ht⟩ := ih hrec
        subst hg
        exact ⟨by simp, r, by simp [hr], by rw [← ha]; exact ht⟩
      | none =>
        rw [hrec] at h
        cases ht : tail xs with
        | some a' =>
          rw [ht] at h
          simp only [Option.some.injEq, Prod.mk.injEq] at h
          obtain ⟨hg, ha⟩ := h
          subst hg
          exact ⟨by simp, xs, rfl, by rw [← ha]; exact ht⟩
        | none => rw [ht] at h; exact absurd h (by simp)

theorem endAnchor_some {s : List Char} {a : PUnit} (h : endAnchor s = some a) :
    s = [] := by
  cases s with
  | nil => rfl
  | cons x xs => simp [endAnchor] at h

theorem searchFrom_some {α : Type} {m : List Char → Option α}
    {s : List Char} {a : α} (h : searchFrom m s = some a) :
    ∃ t, t <:+ s ∧ m t = some a := by
  induction s with
  | nil => exact ⟨[], List.suffix_refl [], h⟩
  | cons x xs ih =>
    simp only [searchFrom] at h
    cases hm : m (x :: xs) with
    | some a' =>
      rw [hm] at h
      simp only [Option.some.injEq] at h
      subst h
      exact ⟨x :: xs, List.suffix_refl _, hm⟩
    | none =>
      rw [hm] at h
      obtain ⟨t, hts, hm2⟩ := ih h
      exact ⟨t, hts.trans (List.suffix_cons x xs), hm2⟩

/-! ## First characters of matching lines

These pin down the first characters a line must have for each recognizer to
fire, which is what makes the summary and unit-header recognizers mutually
exclusive with all the others. -/

theorem analysis_re_head {s : List Char} {g : List Char}
    (h : analysis_re s = some g) : ∃ r, s = 'A' :: r := by
  unfold analysis_re at h
  obtain ⟨p, hp⟩ := Option.map_eq_some'.mp h
  obtain ⟨r, hr, _⟩ := lit_some hp.1
  exact ⟨"nalyzed ".data ++ r, hr⟩

theorem unit_re_head {s : List Char} {g : List Char × List Char × List Char}
    (h : unit_re s = some g) : ∃ r, s = 'i' :: r := by
  unfold unit_re at h
  obtain ⟨p, hp⟩ := Option.map_eq_some'.mp h
  obtain ⟨r, hr, _⟩ := lit_some hp.1
  exact ⟨"n unit ".data ++ r, hr⟩

theorem file_re_head {s : List Char} {g : List Char × List Char × List Char}
    (h : file_re s = some g) : ∃ r, s = ' ' :: ' ' :: r := by
  unfold file_re at h
  obtain ⟨p, hp⟩ := Option.map_eq_some'.mp h
  obtain ⟨r, hr, _⟩ := lit_some hp.1
  exact ⟨r, hr⟩

theorem gen_file_re_head {s : List Char}
    {g : List Char × List Char × List Char × List Char × List Char}
    (h : gen_file_re s = some g) : ∃ r, s = ' ' :: ' ' :: r := by
  unfold gen_file_re at h
  obtain ⟨p, hp⟩ := Option.map_eq_some'.mp h
  obtain ⟨r, hr, _⟩ := lit_some hp.1
  exact ⟨r, hr⟩

theorem mkItemFromLine_head {s : List Char} {it : Item}
    (h : mkItemFromLine s = some it) : ∃ r, s = ' ' :: ' ' :: r := by
  unfold mkItemFromLine at h
  cases hg : gen_file_re s with
  | some g =>
    obtain ⟨n, f, ln, gf, gl⟩ := g
    exact gen_file_re_head hg
  | none =>
    rw [hg] at h
    cases hf : file_re s with
    | some g => obtain ⟨n, f, ln⟩ := g; exact file_re_head hf
    | none => rw [hf] at h; exact absurd h (by simp)

theorem suppr_msg_re_head {s : List Char}
    {g : List Char × List Char × List Char × List Char}
    (h : suppr_msg_re s = some g) : ∃ r, s = ' ' :: ' ' :: ' ' :: ' ' :: r := by
  unfold suppr_msg_re at h
  obtain ⟨p, hp⟩ := Option.map_eq_some'.mp h
  obtain ⟨r, hr, _⟩ := lit_some hp.1
  exact ⟨r, hr⟩

theorem analysis_re_space {r : List Char} : analysis_re (' ' :: r) = none := rfl

theorem unit_re_space {r : List Char} : unit_re (' ' :: r) = none := rfl

theorem unit_re_of_item {s : List Char} {it : Item}
    (h : mkItemFromLine s = some it) : unit_re s = none := by
  obtain ⟨r, hr⟩ := mkItemFromLine_head h
  subst hr
  exact unit_re_space

theorem unit_re_of_suppr {s : List Char}
    {g : List Char × List Char × List Char × List Char}
    (h : suppr_msg_re s = some g) : unit_re s = none := by
  obtain ⟨r, hr⟩ := suppr_msg_re_head h
  subst hr
  exact unit_re_space

/-! ## Behaviour of a step from a `None` current unit -/

/-- A line that is not a unit header and executes without fault from a
`None` current unit seals nothing and leaves the current unit `None`. -/
theorem stepCore_no_header_ok {p : List Char} {d : List Unit} {cu' : Option Unit}
    (hu : unit_re p = none) (h : stepCore p none = .ok (d, cu')) :
    d = [] ∧ cu' = none := by
  unfold stepCore unitStep itemStep supprCore at h
  rw [hu] at h
  cases hi : mkItemFromLine p with
  | some it => rw [hi] at h; simp at h
  | none =>
    rw [hi] at h
    cases hs : suppr_msg_re p with
    | some g => obtain ⟨a, b, c, m⟩ := g; rw [hs] at h; simp at h
    | none =>
      rw [hs] at h
      simp only [Except.ok.injEq, Prod.mk.injEq] at h
      exact ⟨h.1.symm, h.2.symm⟩

/-- An item-shaped line faults when the current unit is `None`. -/
theorem stepCore_item_no_unit {l : List Char} (hl : (mkItemFromLine l).isSome) :
    stepCore l none = .error .itemWithoutUnit := by
  obtain ⟨it, hit⟩ := Option.isSome_iff_exists.mp hl
  have hu : unit_re l = none := unit_re_of_item hit
  unfold stepCore unitStep itemStep
  rw [hu, hit]

/-- A suppression-shaped, non-item-shaped line faults when the current unit
is `None` or has an empty item list. -/
theorem stepCore_suppr_fault {l : List Char} {cu : Option Unit}
    (hs : (suppr_msg_re l).isSome) (hni : mkItemFromLine l = none)
    (hcu : cu = none ∨ ∃ u, cu = some u ∧ u.items = []) :
    ∃ e, stepCore l cu = .error e := by
  obtain ⟨g, hg⟩ := Option.isSome_iff_exists.mp hs
  obtain ⟨f, ln, col, m⟩ := g
  have hu : unit_re l = none := unit_re_of_suppr hg
  rcases hcu with hcu | ⟨u, hcu, hitems⟩
  · subst hcu
    refine ⟨.suppressionWithoutUnit, ?_⟩
    unfold stepCore unitStep itemStep supprCore
    rw [hu, hni, hg]
  · subst hcu
    refine ⟨.suppressionWithoutItem, ?_⟩
    unfold stepCore unitStep itemStep supprCore
    rw [hu, hni, hg]
    dsimp only
    rw [hitems]
    rfl

/-- If no unit-header line occurs before an item-shaped line, the run over
those lines faults. -/
theorem runCore_item_no_unit (pre : List (List Char)) (l : List Char)
    (rest : List (List Char)) (hpre : ∀ p ∈ pre, unit_re p = none)
    (hl : (mkItemFromLine l).isSome) :
    ∃ e, runCore none (pre ++ l :: rest) = .error e := by
  induction pre with
  | nil =>
    refine ⟨.itemWithoutUnit, ?_⟩
    simp only [List.nil_append, runCore, stepCore_item_no_unit hl]
  | cons p ps ih =>
    have hu := hpre p (by simp)
    have hps : ∀ q ∈ ps, unit_re q = none := fun q hq => hpre q (by simp [hq])
    cases hsc : stepCore p none with
    | error e =>
      exact ⟨e, by simp only [List.cons_append, runCore, hsc]⟩
    | ok pr =>
      obtain ⟨d, cu'⟩ := pr
      obtain ⟨hd, hcu⟩ := stepCore_no_header_ok hu hsc
      subst hd; subst hcu
      obtain ⟨e, he⟩ := ih hps
      refine ⟨e, ?_⟩
      have he' : runCore none (List.append ps (l :: rest)) = Except.error e := he
      simp only [List.cons_append, runCore, hsc, he, he']

/-! ## Tracking unit headers -/

/-- Appending an item never changes the header fields of the current unit. -/
theorem itemStep_key {l : List Char} {cu cu' : Option Unit}
    (h : itemStep l cu = .ok cu') : cu'.map unitKey = cu.map unitKey := by
  unfold itemStep at h
  cases hi : mkItemFromLine l with
  | none =>
    rw [hi] at h
    simp only [Except.ok.injEq] at h
    rw [h]
  | some it =>
    rw [hi] at h
    cases cu with
    | none => simp at h
    | some u =>
      simp only [Except.ok.injEq] at h
      rw [← h]
      simp [unitKey]

/-- Attaching a suppression never changes the header fields of the current
unit. -/
theorem supprCore_key {l : List Char} {cu cu' : Option Unit}
    (h : supprCore l cu = .ok cu') : cu'.map unitKey = cu.map unitKey := by
  unfold supprCore at h
  cases hs : suppr_msg_re l with
  | none =>
    rw [hs] at h
    simp only [Except.ok.injEq] at h
    rw [h]
  | some g =>
    obtain ⟨f, ln, col, m⟩ := g
    rw [hs] at h
    cases cu with
    | none => simp at h
    | some u =>
      dsimp only at h
      cases hsl : setLastSuppr
          { fileName := f, lineNumber := ln, column := col,
            message := stripChars m } u.items with
      | none => rw [hsl] at h; simp at h
      | some items =>
        rw [hsl] at h
        simp only [Except.ok.injEq] at h
        rw [← h]
        simp [unitKey]

/-- One non-faulting step extends the header sequence exactly by the
headers of the line (one if it is a unit-header line, none otherwise). -/
theorem stepCore_keys {l : List Char} {cu : Option Unit} {d : List Unit}
    {cu' : Option Unit} (h : stepCore l cu = .ok (d, cu')) :
    d.map unitKey ++ (cu'.map unitKey).toList =
      (cu.map unitKey).toList ++ ((unit_re l).map headerKey).toList := by
  unfold stepCore at h
  cases hi : itemStep l (unitStep l cu).2 with
  | error e => rw [hi] at h; simp at h
  | ok cu2 =>
    rw [hi] at h
    dsimp only at h
    cases hs : supprCore l cu2 with
    | error e => rw [hs] at h; simp at h
    | ok cu3 =>
      rw [hs] at h
      simp only [Except.ok.injEq, Prod.mk.injEq] at h
      obtain ⟨hd, hcu⟩ := h
      rw [← hd, ← hcu]
      rw [supprCore_key hs, itemStep_key hi]
      unfold unitStep
      cases hu : unit_re l with
      | none => simp
      | some g =>
        obtain ⟨n, a, t⟩ := g
        cases cu <;> simp [unitKey, headerKey, Option.toList]

/-- A non-faulting run emits exactly the headers of its unit-header lines,
in input order. -/
theorem runCore_keys {ls : List (List Char)} {cu : Option Unit}
    {d : List Unit} {cu' : Option Unit} (h : runCore cu ls = .ok (d, cu')) :
    d.map unitKey ++ (cu'.map unitKey).toList =
      (cu.map unitKey).toList ++ (ls.filterMap unit_re).map headerKey := by
  induction ls generalizing cu d cu' with
  | nil =>
    simp only [runCore, Except.ok.injEq, Prod.mk.injEq] at h
    obtain ⟨hd, hcu⟩ := h
    rw [← hd, ← hcu]
    simp
  | cons l ls ih =>
    simp only [runCore] at h
    cases hsc : stepCore l cu with
    | error e => rw [hsc] at h; simp at h
    | ok p =>
      obtain ⟨d1, cu1⟩ := p
      rw [hsc] at h
      dsimp only at h
      cases hrc : runCore cu1 ls with
      | error e => rw [hrc] at h; simp at h
      | ok p2 =>
        obtain ⟨d2, cu2⟩ := p2
        rw [hrc] at h
        dsimp only at h
        simp only [Except.ok.injEq, Prod.mk.injEq] at h
        obtain ⟨hd, hcu⟩ := h
        rw [← hd, ← hcu]
        have k1 := stepCore_keys hsc
        have k2 := ih hrc
        calc (d1 ++ d2).map unitKey ++ (cu2.map unitKey).toList
            = d1.map unitKey ++ (d2.map unitKey ++ (cu2.map unitKey).toList) := by
              simp [List.append_assoc]
          _ = d1.map unitKey ++
                ((cu1.map unitKey).toList ++ (ls.filterMap unit_re).map headerKey) := by
              rw [k2]
          _ = (d1.map unitKey ++ (cu1.map unitKey).toList) ++
                (ls.filterMap unit_re).map headerKey := by
              simp [List.append_assoc]
          _ = ((cu.map unitKey).toList ++ ((unit_re l).map headerKey).toList) ++
                (ls.filterMap unit_re).map headerKey := by
              rw [k1]
          _ = (cu.map unitKey).toList ++ ((l :: ls).filterMap unit_re).map headerKey := by
              cases hu : unit_re l <;>
                simp [List.filterMap_cons, hu, List.append_assoc]

theorem length_filterMap_eq_countP {α β : Type} (f : α → Option β) (l : List α) :
    (l.filterMap f).length = l.countP (fun x => (f x).isSome) := by
  induction l with
  | nil => rfl
  | cons x xs ih =>
    cases hf : f x <;> simp [List.filterMap_cons, hf, List.countP_cons, ih]

/-! ## Last characters of lines matching the end-anchored clause patterns -/

/-- A line on which `proved_re` fires ends in a closing parenthesis (the
pattern is `$`-anchored and ends in `checks\)`). -/
theorem proved_re_last {l : List Char} {g : List Char}
    (h : proved_re l = some g) : l.getLast? = some ')' := by
  unfold proved_re at h
  obtain ⟨p, hp, hg⟩ := Option.map_eq_some'.mp h
  obtain ⟨g1, u1⟩ := p
  obtain ⟨t, hts, hm⟩ := searchFrom_some hp
  obtain ⟨r1, hr1, hm2⟩ := lit_some hm
  obtain ⟨hne, hdig, r2, hr2, hm3⟩ := digPlus_some hm2
  obtain ⟨r3, hr3, hm4⟩ := lit_some hm3
  have hr30 : r3 = [] := endAnchor_some hm4
  subst hr30
  rw [List.append_nil] at hr3
  obtain ⟨p0, hp0⟩ := hts
  have hl : l = ((p0 ++ "proved (".data) ++ g1) ++ " checks)".data := by
    rw [← hp0, hr1, hr2, hr3]
    simp [List.append_assoc]
  rw [hl, List.getLast?_append_of_ne_nil _ (by decide)]
  rfl

/-- A line on which `not_proved_re` fires ends in the letter `d` (the
pattern is `$`-anchored and ends in `proved`). -/
theorem not_proved_re_last {l : List Char} {g : List Char × List Char}
    (h : not_proved_re l = some g) : l.getLast? = some 'd' := by
  unfold not_proved_re at h
  obtain ⟨p, hp, hg⟩ := Option.map_eq_some'.mp h
  obtain ⟨g1, g2, u1⟩ := p
  obtain ⟨t, hts, hm⟩ := searchFrom_some hp
  obtain ⟨r1, hr1, hm2⟩ := lit_some hm
  obtain ⟨hne1, hdig1, r2, hr2, hm3⟩ := digPlus_some hm2
  obtain ⟨r3, hr3, hm4⟩ := lit_some hm3
  obtain ⟨hne2, hdig2, r4, hr4, hm5⟩ := digPlus_some hm4
  obtain ⟨r5, hr5, hm6⟩ := lit_some hm5
  have hr50 : r5 = [] := endAnchor_some hm6
  subst hr50
  rw [List.append_nil] at hr5
  obtain ⟨p0, hp0⟩ := hts
  have hl : l =
      ((((p0 ++ "not proved, ".data) ++ g1) ++ " checks out of ".data) ++ g2) ++
        " proved".data := by
    rw [← hp0, hr1, hr2, hr3, hr4, hr5]
    simp [List.append_assoc]
  rw [hl, List.getLast?_append_of_ne_nil _ (by decide)]
  rfl

/-! ## Transfer of a run to a different starting current unit

A run that succeeds from a `None` current unit also succeeds from any
other starting current unit: up to its first unit-header line it contains
only inert lines (anything item- or suppression-shaped would have faulted
from `None`), and from that header on the evolution no longer depends on
the starting unit, which is merely sealed in front. -/

theorem mkItemFromLine_of_unit {l : List Char}
    {g : List Char × List Char × List Char} (h : unit_re l = some g) :
    mkItemFromLine l = none := by
  obtain ⟨r, hr⟩ := unit_re_head h
  subst hr
  rfl

theorem suppr_msg_re_of_unit {l : List Char}
    {g : List Char × List Char × List Char} (h : unit_re l = some g) :
    suppr_msg_re l = none := by
  obtain ⟨r, hr⟩ := unit_re_head h
  subst hr
  rfl

/-- On a unit-header line, the step seals the current unit and installs the
fresh one, from any starting current unit. -/
theorem stepCore_header {l : List Char} {g : List Char × List Char × List Char}
    (h : unit_re l = some g) (cu : Option Unit) :
    stepCore l cu =
      .ok (cu.toList,
        some { name := g.1, numAnalyzed := natOfDigits g.2.1,
               numTotal := natOfDigits g.2.2, items := [] }) := by
  obtain ⟨n, a, t⟩ := g
  unfold stepCore unitStep itemStep supprCore
  rw [h, mkItemFromLine_of_unit h, suppr_msg_re_of_unit h]

/-- A line matching none of the recognizers that touch the unit state is
inert, from any starting current unit. -/
theorem stepCore_skip {l : List Char} (h1 : unit_re l = none)
    (h2 : mkItemFromLine l = none) (h3 : suppr_msg_re l = none)
    (cu : Option Unit) : stepCore l cu = .ok ([], cu) := by
  unfold stepCore unitStep itemStep supprCore
  rw [h1, h2, h3]

/-- A non-header line that executes without fault from a `None` current
unit is neither item- nor suppression-shaped. -/
theorem stepCore_none_ok_skip {l : List Char} {d : List Unit}
    {cu' : Option Unit} (hu : unit_re l = none)
    (h : stepCore l none = .ok (d, cu')) :
    mkItemFromLine l = none ∧ suppr_msg_re l = none := by
  unfold stepCore unitStep itemStep supprCore at h
  rw [hu] at h
  cases hi : mkItemFromLine l with
  | some it => rw [hi] at h; simp at h
  | none =>
    rw [hi] at h
    cases hs : suppr_msg_re l with
    | some g => obtain ⟨f, ln, col, m⟩ := g; rw [hs] at h; simp at h
    | none => exact ⟨rfl, rfl⟩

/-- Transfer lemma: a run that succeeds from `None` also runs from any
`cu0`; if it contains no unit header it is fully inert, otherwise `cu0` is
sealed in front of the run's own sealed units. -/
theorem runCore_transfer {ls : List (List Char)} {d : List Unit}
    {cuF : Option Unit} (h : runCore none ls = .ok (d, cuF))
    (cu0 : Option Unit) :
    (cuF = none ∧ d = [] ∧ runCore cu0 ls = .ok ([], cu0)) ∨
    (runCore cu0 ls = .ok (cu0.toList ++ d, cuF)) := by
  induction ls generalizing d cuF with
  | nil =>
    simp only [runCore, Except.ok.injEq, Prod.mk.injEq] at h
    exact Or.inl ⟨h.2.symm, h.1.symm, rfl⟩
  | cons l ls ih =>
    simp only [runCore] at h
    cases hu : unit_re l with
    | some g =>
      rw [stepCore_header hu none] at h
      dsimp only at h
      cases hrc : runCore (some ⟨g.1, natOfDigits g.2.1, natOfDigits g.2.2, []⟩) ls with
      | error e => rw [hrc] at h; simp at h
      | ok p2 =>
        obtain ⟨d2, cu2⟩ := p2
        rw [hrc] at h
        simp only [Except.ok.injEq, Prod.mk.injEq, List.nil_append] at h
        obtain ⟨hd, hcu⟩ := h
        right
        show runCore cu0 (l :: ls) = _
        simp only [runCore, stepCore_header hu cu0, hrc]
        rw [← hd, ← hcu]
        simp [List.append_assoc]
    | none =>
      cases hsc : stepCore l none with
      | error e => rw [hsc] at h; simp at h
      | ok p =>
        obtain ⟨d1, cu1⟩ := p
        obtain ⟨hd1, hcu1⟩ := stepCore_no_header_ok hu hsc
        subst hd1; subst hcu1
        obtain ⟨hni, hns⟩ := stepCore_none_ok_skip hu hsc
        rw [hsc] at h
        dsimp only at h
        cases hrc : runCore none ls with
        | error e => rw [hrc] at h; simp at h
        | ok p2 =>
          obtain ⟨d2, cu2⟩ := p2
          rw [hrc] at h
          simp only [Except.ok.injEq, Prod.mk.injEq, List.nil_append] at h
          obtain ⟨hd, hcu⟩ := h
          rcases ih hrc with ⟨hc2, hd2, hrun⟩ | hrun
          · left
            refine ⟨by rw [← hcu, hc2], by rw [← hd, hd2], ?_⟩
            show runCore cu0 (l :: ls) = _
            simp only [runCore, stepCore_skip hu hni hns cu0, hrun]
            rfl
          · right
            show runCore cu0 (l :: ls) = _
            simp only [runCore, stepCore_skip hu hni hns cu0, hrun]
            rw [← hd, ← hcu]
            rfl

/-! ## Provenance of the proof-related fields of items

Every item in a parsed report was created by some input line, and nothing
after its creation (only suppression attachment) changes its `proved`,
`numChecks` or `numProvedChecks` fields. -/

/-- The item dictionary built from the leading item shape starts not
proved. -/
theorem mkItemFromLine_init {l : List Char} {it0 : Item}
    (h : mkItemFromLine l = some it0) : it0.proved = false := by
  unfold mkItemFromLine at h
  cases hg : gen_file_re l with
  | some g =>
    obtain ⟨n, f, ln, gf, gl⟩ := g
    rw [hg] at h
    simp only [Option.some.injEq] at h
    rw [← h]
    rfl
  | none =>
    rw [hg] at h
    cases hf : file_re l with
    | some g =>
      obtain ⟨n, f, ln⟩ := g
      rw [hf] at h
      simp only [Option.some.injEq] at h
      rw [← h]
      rfl
    | none => rw [hf] at h; exact absurd h (by simp)

/-- How the three trailing clauses determine the proof-related fields of
the created item. -/
theorem applyClauses_fields (l : List Char) (it0 : Item) :
    provedFields (applyClauses l it0) =
      match not_proved_re l with
      | some (p, c) => (true, natOfDigits c, natOfDigits p)
      | none =>
        match proved_re l with
        | some c => (true, natOfDigits c, natOfDigits c)
        | none => (it0.proved, it0.numChecks, it0.numProvedChecks) := by
  unfold applyClauses provedFields
  cases hf : flow_re l <;> cases hp : proved_re l <;> cases hn : not_proved_re l <;>
    rfl

/-- Attaching a suppression to the last item changes no proof-related
field of any item. -/
theorem setLastSuppr_fields {s : Suppression} {items items' : List Item}
    (h : setLastSuppr s items = some items') :
    items'.map provedFields = items.map provedFields := by
  induction items generalizing items' with
  | nil => simp [setLastSuppr] at h
  | cons i is ih =>
    cases is with
    | nil =>
      simp only [setLastSuppr, Option.some.injEq] at h
      rw [← h]
      simp [provedFields]
    | cons i2 is2 =>
      simp only [setLastSuppr] at h
      cases hrec : setLastSuppr s (i2 :: is2) with
      | none => rw [hrec] at h; simp at h
      | some r =>
        rw [hrec] at h
        simp only [Option.map_some', Option.some.injEq] at h
        rw [← h]
        simp only [List.map_cons, ih hrec]

theorem itemStep_items {l : List Char} {cu cu' : Option Unit}
    (h : itemStep l cu = .ok cu') :
    ∀ it ∈ optItems cu', it ∈ optItems cu ∨ itemOfLine l = some it := by
  unfold itemStep at h
  cases hi : mkItemFromLine l with
  | none =>
    rw [hi] at h
    simp only [Except.ok.injEq] at h
    rw [← h]
    intro it hit
    exact Or.inl hit
  | some item =>
    rw [hi] at h
    cases cu with
    | none => simp at h
    | some u =>
      simp only [Except.ok.injEq] at h
      rw [← h]
      intro it hit
      simp only [optItems, List.mem_append, List.mem_singleton] at hit
      rcases hit with hit | hit
      · exact Or.inl hit
      · right
        rw [itemOfLine, hi, Option.map_some', hit]

theorem supprCore_items {l : List Char} {cu cu' : Option Unit}
    (h : supprCore l cu = .ok cu') :
    ∀ it ∈ optItems cu', ∃ it0 ∈ optItems cu,
      provedFields it = provedFields it0 := by
  unfold supprCore at h
  cases hs : suppr_msg_re l with
  | none =>
    rw [hs] at h
    simp only [Except.ok.injEq] at h
    rw [← h]
    intro it hit
    exact ⟨it, hit, rfl⟩
  | some g =>
    obtain ⟨f, ln, col, m⟩ := g
    rw [hs] at h
    cases cu with
    | none => simp at h
    | some u =>
      dsimp only at h
      cases hsl : setLastSuppr
          { fileName := f, lineNumber := ln, column := col,
            message := stripChars m } u.items with
      | none => rw [hsl] at h; simp at h
      | some items' =>
        rw [hsl] at h
        simp only [Except.ok.injEq] at h
        rw [← h]
        intro it hit
        have hmap := setLastSuppr_fields hsl
        have : provedFields it ∈ items'.map provedFields :=
          List.mem_map_of_mem provedFields hit
        rw [hmap] at this
        obtain ⟨it0, hit0, heq⟩ := List.mem_map.mp this
        exact ⟨it0, hit0, heq.symm⟩

/-- The items visible after one non-faulting step are items already
present before it (with unchanged proof fields) or the item created from
the line itself. -/
theorem stepCore_items {l : List Char} {cu : Option Unit} {d : List Unit}
    {cu' : Option Unit} (h : stepCore l cu = .ok (d, cu')) :
    ∀ it ∈ d.flatMap Unit.items ++ optItems cu',
      (∃ it0 ∈ optItems cu, provedFields it = provedFields it0) ∨
      (∃ it0, itemOfLine l = some it0 ∧ provedFields it = provedFields it0) := by
  unfold stepCore at h
  cases hi : itemStep l (unitStep l cu).2 with
  | error e => rw [hi] at h; simp at h
  | ok cu2 =>
    rw [hi] at h
    dsimp only at h
    cases hs : supprCore l cu2 with
    | error e => rw [hs] at h; simp at h
    | ok cu3 =>
      rw [hs] at h
      simp only [Except.ok.injEq, Prod.mk.injEq] at h
      obtain ⟨hd, hcu⟩ := h
      intro it hit
      rw [← hd, ← hcu] at hit
      rcases List.mem_append.mp hit with hit | hit
      · -- an item of a sealed unit: only a unit-header line seals, and it
        -- seals exactly the incoming current unit
        left
        refine ⟨it, ?_, rfl⟩
        unfold unitStep at hit
        cases hu : unit_re l with
        | none => rw [hu] at hit; simp at hit
        | some g =>
          obtain ⟨n, a, t⟩ := g
          rw [hu] at hit
          cases cu with
          | none => simp [Option.toList] at hit
          | some u =>
            simp only [Option.toList, List.flatMap_cons, List.flatMap_nil,
              List.append_nil] at hit
            simpa [optItems] using hit
      · -- an item of the final current unit
        obtain ⟨it2, hit2, hpf2⟩ := supprCore_items hs it hit
        rcases itemStep_items hi it2 hit2 with hmem | hnew
        · -- already present after the unit step
          unfold unitStep at hmem
          cases hu : unit_re l with
          | none =>
            rw [hu] at hmem
            exact Or.inl ⟨it2, hmem, hpf2⟩
          | some g =>
            obtain ⟨n, a, t⟩ := g
            rw [hu] at hmem
            simp [optItems] at hmem
        · exact Or.inr ⟨it2, hnew, hpf2⟩

/-- Provenance over a whole run: every item either descends from the
starting current unit or was created by one of the lines, in both cases
with its proof fields unchanged since creation. -/
theorem runCore_items {ls : List (List Char)} {cu : Option Unit}
    {d : List Unit} {cu' : Option Unit} (h : runCore cu ls = .ok (d, cu')) :
    ∀ it ∈ d.flatMap Unit.items ++ optItems cu',
      (∃ it0 ∈ optItems cu, provedFields it = provedFields it0) ∨
      (∃ l ∈ ls, ∃ it0, itemOfLine l = some it0 ∧
        provedFields it = provedFields it0) := by
  induction ls generalizing cu d cu' with
  | nil =>
    simp only [runCore, Except.ok.injEq, Prod.mk.injEq] at h
    obtain ⟨hd, hcu⟩ := h
    intro it hit
    rw [← hd, ← hcu] at hit
    simp only [List.flatMap_nil, List.nil_append] at hit
    exact Or.inl ⟨it, hit, rfl⟩
  | cons l ls ih =>
    simp only [runCore] at h
    cases hsc : stepCore l cu with
    | error e => rw [hsc] at h; simp at h
    | ok p =>
      obtain ⟨d1, cu1⟩ := p
      rw [hsc] at h
      dsimp only at h
      cases hrc : runCore cu1 ls with
      | error e => rw [hrc] at h; simp at h
      | ok p2 =>
        obtain ⟨d2, cu2⟩ := p2
        rw [hrc] at h
        simp only [Except.ok.injEq, Prod.mk.injEq] at h
        obtain ⟨hd, hcu⟩ := h
        intro it hit
        rw [← hd, ← hcu] at hit
        simp only [List.flatMap_append, List.append_assoc, List.mem_append] at hit
        rcases hit with hit | hit
        · -- sealed by the first step
          rcases stepCore_items hsc it (List.mem_append.mpr (Or.inl hit)) with
            ⟨it0, h0, hpf⟩ | ⟨it0, h0, hpf⟩
          · exact Or.inl ⟨it0, h0, hpf⟩
          · exact Or.inr ⟨l, by simp, it0, h0, hpf⟩
        · -- visible after the rest of the run
          rcases ih hrc it (by simpa using hit) with ⟨it1, h1, hpf1⟩ | ⟨l2, hl2, it1, h1, hpf1⟩
          · rcases stepCore_items hsc it1
                (List.mem_append.mpr (Or.inr h1)) with
              ⟨it0, h0, hpf⟩ | ⟨it0, h0, hpf⟩
            · exact Or.inl ⟨it0, h0, hpf1.trans hpf⟩
            · exact Or.inr ⟨l, by simp, it0, h0, hpf1.trans hpf⟩
          · exact Or.inr ⟨l2, by simp [hl2], it1, h1, hpf1⟩

/-! ## The claims -/

/-- C1: parsing the four-line scenario input yields `numUnitsAnalyzed = 1`
and exactly one unit `Foo` (2 analyzed of 2) with exactly two items, in
order: `Foo.Bar` (`foo.adb`, line `10`, flow analyzed with 0 errors and 1
warning, not proved) and `Foo.Baz` (`foo.adb`, line `20`, proved with 3 of
3 checks); the proof ratio of 3 proved checks out of 3 is exactly 1. -/
theorem claim_C1 :
    parse_gnatprove_report
      ["Analyzed 1 units".data,
       "in unit Foo, 2 subprograms and packages out of 2 analyzed".data,
       "  Foo.Bar at foo.adb:10 flow analyzed (0 errors and 1 warnings)".data,
       "  Foo.Baz at foo.adb:20 proved (3 checks)".data] =
      .ok { numUnitsAnalyzed := some 1,
            units :=
              [{ name := "Foo".data, numAnalyzed := 2, numTotal := 2,
                 items :=
                   [{ name := "Foo.Bar".data, fileName := "foo.adb".data,
                      lineNumber := "10".data,
                      instFileName := none, instLineNumber := none,
                      suppressions := [],
                      numFlowErrors := 0, numFlowWarnings := 1,
                      numChecks := 0, numProvedChecks := 0,
                      flowAnalyzed := true, proved := false },
                    { name := "Foo.Baz".data, fileName := "foo.adb".data,
                      lineNumber := "20".data,
                      instFileName := none, instLineNumber := none,
                      suppressions := [],
                      numFlowErrors := 0, numFlowWarnings := 0,
                      numChecks := 3, numProvedChecks := 3,
                      flowAnalyzed := false, proved := true }] }] }
    ∧ to_percent ((3 : ℕ) : ℚ) ((3 : ℕ) : ℚ) = 1 := by
  constructor
  · rfl
  · norm_num [to_percent]

/-- C5: for all non-negative integer counts, `to_percent` is exactly `1`
when the denominator is zero, and the exact quotient otherwise. -/
theorem claim_C5 (p c : ℕ) :
    (c = 0 → to_percent (p : ℚ) (c : ℚ) = 1) ∧
    (0 < c → to_percent (p : ℚ) (c : ℚ) = (p : ℚ) / (c : ℚ)) := by
  constructor
  · intro h
    subst h
    simp [to_percent]
  · intro h
    have hc : (c : ℚ) ≠ 0 := Nat.cast_ne_zero.mpr h.ne'
    simp [to_percent, hc]

theorem claim_C5_witness :
    to_percent ((2 : ℕ) : ℚ) ((0 : ℕ) : ℚ) = 1 ∧
    to_percent ((3 : ℕ) : ℚ) ((4 : ℕ) : ℚ) = ((3 : ℕ) : ℚ) / ((4 : ℕ) : ℚ) :=
  ⟨(claim_C5 2 0).1 rfl, (claim_C5 3 4).2 (by decide)⟩

/-- C6 counterexample: the line `Analyzed X units`, whose numeric field is
not numeric, is NOT a fatal format error: parsing returns the untouched
empty report, the line being silently ignored. -/
theorem claim_C6_cex :
    parse_gnatprove_report ["Analyzed X units".data] =
      .ok { numUnitsAnalyzed := none, units := [] } := by
  rfl

/-- C6 (amended): a line with a non-numeric numeric field cannot match any
`\d+` capture, so it matches none of the recognizers and is silently
ignored as an unrecognized line — the parser state is left unchanged and
no error is raised. -/
theorem claim_C6 (st : PState) (l : List Char)
    (h1 : analysis_re l = none) (h2 : unit_re l = none)
    (h3 : mkItemFromLine l = none) (h4 : suppr_msg_re l = none) :
    processLine st l = .ok st := by
  obtain ⟨n, us, cu⟩ := st
  rw [processLine_eq]
  unfold stepCore unitStep itemStep supprCore numStep
  rw [h1, h2, h3, h4]
  simp

theorem claim_C6_witness :
    processLine { numUnitsAnalyzed := none, units := [], currentUnit := none }
        ("Analyzed X units".data) =
      .ok { numUnitsAnalyzed := none, units := [], currentUnit := none } :=
  claim_C6 _ _ rfl rfl rfl rfl

/-- C10: an item-shaped line read before any unit-header line has been
seen makes `parse_gnatprove_report` fail fatally (the source appends to a
`None` `currentUnit`), rather than ignore the line or return a partial
report. -/
theorem claim_C10 (pre : List (List Char)) (l : List Char)
    (rest : List (List Char)) (hpre : ∀ p ∈ pre, unit_re p = none)
    (hl : (mkItemFromLine l).isSome) :
    ∃ e, parse_gnatprove_report (pre ++ l :: rest) = .error e := by
  obtain ⟨e, he⟩ := runCore_item_no_unit pre l rest hpre hl
  refine ⟨e, ?_⟩
  rw [parse_eq, he]

theorem claim_C10_witness :
    ∃ e, parse_gnatprove_report [("  W10 at w.adb:7").data] = .error e :=
  claim_C10 [] ("  W10 at w.adb:7").data [] (by simp) (by rfl)

/-- C2: on every input the parser accepts, the units of the report are, in
order, exactly the units described by the unit-header lines of the input
(same header fields, same order), and in particular their number equals the
number of unit-header-shaped lines; the trailing unit still open at end of
input is sealed and appended, which is what makes the last header's unit
appear. -/
theorem claim_C2 (lines : List (List Char)) (r : Report)
    (h : parse_gnatprove_report lines = .ok r) :
    r.units.map unitKey = (lines.filterMap unit_re).map headerKey ∧
    r.units.length = lines.countP (fun l => (unit_re l).isSome) := by
  rw [parse_eq] at h
  cases hrc : runCore none lines with
  | error e => rw [hrc] at h; simp at h
  | ok p =>
    obtain ⟨d, cuF⟩ := p
    rw [hrc] at h
    simp only [Except.ok.injEq] at h
    have k := runCore_keys hrc
    simp only [Option.map_none', Option.toList_none, List.nil_append] at k
    have hunits : r.units = d ++ cuF.toList := by rw [← h]
    have htl : (cuF.toList).map unitKey = (cuF.map unitKey).toList := by
      cases cuF <;> simp
    have hmap : r.units.map unitKey = (lines.filterMap unit_re).map headerKey := by
      rw [hunits, List.map_append, htl, k]
    refine ⟨hmap, ?_⟩
    have hlen : (r.units.map unitKey).length =
        ((lines.filterMap unit_re).map headerKey).length := by rw [hmap]
    simpa [length_filterMap_eq_countP] using hlen

theorem claim_C2_witness :
    (Report.mk (some 5) [Unit.mk "W2".data 3 4 []]).units.map unitKey =
      (([("Analyzed 5 units").data,
         ("in unit W2, 3 subprograms and packages out of 4 analyzed").data]).filterMap
        unit_re).map headerKey ∧
    (Report.mk (some 5) [Unit.mk "W2".data 3 4 []]).units.length =
      ([("Analyzed 5 units").data,
        ("in unit W2, 3 subprograms and packages out of 4 analyzed").data]).countP
        (fun l => (unit_re l).isSome) :=
  claim_C2 _ _ (by rfl)

/-- C3 counterexample: the line `    x at foo.adb:1:2: bar` is
suppression-shaped and is read while the current unit's item list is empty,
yet parsing does NOT fail: the line also matches the item pattern
(`file_re` finds ` at ` inside it), so block 3 first creates an item from
it and block 4 then attaches the suppression to that very item. -/
theorem claim_C3_cex :
    (suppr_msg_re ("    x at foo.adb:1:2: bar").data).isSome = true ∧
    parse_gnatprove_report
      [("in unit Foo, 1 subprograms and packages out of 1 analyzed").data,
       ("    x at foo.adb:1:2: bar").data] =
      .ok { numUnitsAnalyzed := none,
            units :=
              [{ name := "Foo".data, numAnalyzed := 1, numTotal := 1,
                 items :=
                   [{ name := "  x".data, fileName := "foo.adb:1".data,
                      lineNumber := "2".data,
                      instFileName := none, instLineNumber := none,
                      suppressions :=
                        [{ fileName := "x at foo.adb".data,
                           lineNumber := "1".data, column := "2".data,
                           message := "bar".data }],
                      numFlowErrors := 0, numFlowWarnings := 0,
                      numChecks := 0, numProvedChecks := 0,
                      flowAnalyzed := false, proved := false }] }] } :=
  ⟨rfl, rfl⟩

/-- C3 (amended): a suppression-shaped line that does not also match the
item-line shape, read when the current unit is null or its item list is
empty, makes the parse fail fatally; when the line additionally matches the
item shape, the item created from the same line absorbs the suppression
instead. -/
theorem claim_C3 (pre : List (List Char)) (l : List Char)
    (rest : List (List Char)) (st : PState)
    (hrun : runLines { numUnitsAnalyzed := none, units := [], currentUnit := none }
        pre = .ok st)
    (hcu : st.currentUnit = none ∨ ∃ u, st.currentUnit = some u ∧ u.items = [])
    (hs : (suppr_msg_re l).isSome) (hni : mkItemFromLine l = none) :
    ∃ e, parse_gnatprove_report (pre ++ l :: rest) = .error e := by
  rw [runLines_eq] at hrun
  cases hrc : runCore none pre with
  | error e => rw [hrc] at hrun; simp at hrun
  | ok p =>
    obtain ⟨d0, cu0⟩ := p
    rw [hrc] at hrun
    dsimp only at hrun
    simp only [Except.ok.injEq] at hrun
    have hcu0 : st.currentUnit = cu0 := by rw [← hrun]
    rw [hcu0] at hcu
    obtain ⟨e, he⟩ := stepCore_suppr_fault hs hni hcu
    refine ⟨e, ?_⟩
    rw [parse_eq, runCore_append, hrc]
    dsimp only
    simp only [runCore, he]

theorem claim_C3_witness :
    ∃ e, parse_gnatprove_report ([] ++ ("    foo.adb:1:2: bad").data :: []) =
      .error e :=
  claim_C3 [] ("    foo.adb:1:2: bad").data []
    { numUnitsAnalyzed := none, units := [], currentUnit := none }
    (by rfl) (Or.inl rfl) (by rfl) (by rfl)

/-- C7 counterexample: the single physical line `    y at bar.adb:3:4: msg`
is processed BOTH as an item line (an item named `  y` is created) and as a
suppression line (a suppression is attached to that item): two recognizers
fire on one line. -/
theorem claim_C7_cex :
    (file_re ("    y at bar.adb:3:4: msg").data).isSome = true ∧
    (suppr_msg_re ("    y at bar.adb:3:4: msg").data).isSome = true ∧
    parse_gnatprove_report
      [("in unit Baz, 2 subprograms and packages out of 3 analyzed").data,
       ("    y at bar.adb:3:4: msg").data] =
      .ok { numUnitsAnalyzed := none,
            units :=
              [{ name := "Baz".data, numAnalyzed := 2, numTotal := 3,
                 items :=
                   [{ name := "  y".data, fileName := "bar.adb:3".data,
                      lineNumber := "4".data,
                      instFileName := none, instLineNumber := none,
                      suppressions :=
                        [{ fileName := "y at bar.adb".data,
                           lineNumber := "3".data, column := "4".data,
                           message := "msg".data }],
                      numFlowErrors := 0, numFlowWarnings := 0,
                      numChecks := 0, numProvedChecks := 0,
                      flowAnalyzed := false, proved := false }] }] } :=
  ⟨rfl, rfl, rfl⟩

/-- C7 (amended): the global-summary recognizer excludes the other three
on any line, and the unit-header recognizer excludes the item and
suppression recognizers; item and suppression recognizers, however, are
NOT mutually exclusive (see the counterexample), so only these pairs are. -/
theorem claim_C7 (l : List Char) :
    (((analysis_re l).isSome &&
        ((unit_re l).isSome || (mkItemFromLine l).isSome ||
          (suppr_msg_re l).isSome)) = false) ∧
    (((unit_re l).isSome &&
        ((mkItemFromLine l).isSome || (suppr_msg_re l).isSome)) = false) := by
  constructor
  · cases ha : analysis_re l with
    | none => simp
    | some g =>
      obtain ⟨r, hr⟩ := analysis_re_head ha
      subst hr
      simp [show unit_re ('A' :: r) = none from rfl,
            show mkItemFromLine ('A' :: r) = none from rfl,
            show suppr_msg_re ('A' :: r) = none from rfl]
  · cases hu : unit_re l with
    | none => simp
    | some g =>
      obtain ⟨r, hr⟩ := unit_re_head hu
      subst hr
      simp [show mkItemFromLine ('i' :: r) = none from rfl,
            show suppr_msg_re ('i' :: r) = none from rfl]

/-- C8 counterexample: on the line
`  Qux.F at qux.adb:5 flow analyzed (1 errors and 2 warnings) proved (3 checks)`
both the flow clause and the proved clause fire, and the resulting item has
both the flow fields and the proof fields set. -/
theorem claim_C8_cex :
    (flow_re ("  Qux.F at qux.adb:5 flow analyzed (1 errors and 2 warnings) proved (3 checks)").data).isSome
      = true ∧
    (proved_re ("  Qux.F at qux.adb:5 flow analyzed (1 errors and 2 warnings) proved (3 checks)").data).isSome
      = true ∧
    parse_gnatprove_report
      [("in unit Qux, 1 subprograms and packages out of 1 analyzed").data,
       ("  Qux.F at qux.adb:5 flow analyzed (1 errors and 2 warnings) proved (3 checks)").data] =
      .ok { numUnitsAnalyzed := none,
            units :=
              [{ name := "Qux".data, numAnalyzed := 1, numTotal := 1,
                 items :=
                   [{ name := "Qux.F".data, fileName := "qux.adb".data,
                      lineNumber := "5".data,
                      instFileName := none, instLineNumber := none,
                      suppressions := [],
                      numFlowErrors := 1, numFlowWarnings := 2,
                      numChecks := 3, numProvedChecks := 3,
                      flowAnalyzed := true, proved := true }] }] } :=
  ⟨rfl, rfl, rfl⟩

/-- C8 (amended): among the three trailing clauses only the two proof
clauses are mutually exclusive on every line (both are `$`-anchored and
force different final characters); the flow clause is independent and can
fire together with a proof clause (see the counterexample). -/
theorem claim_C8 (l : List Char) :
    ((proved_re l).isSome && (not_proved_re l).isSome) = false := by
  cases hp : proved_re l with
  | none => simp
  | some g =>
    cases hn : not_proved_re l with
    | none => simp
    | some g2 =>
      have h1 := proved_re_last hp
      have h2 := not_proved_re_last hn
      rw [h1] at h2
      exact absurd (Option.some.inj h2) (by decide)

/-- C9: parsing the concatenation of two inputs that each parse
successfully yields a report whose unit list is the concatenation of the
two individual unit lists. This covers the claim's separator-terminated
valid reports and more: any two successfully parsed inputs compose. -/
theorem claim_C9 (A B : List (List Char)) (ra rb : Report)
    (ha : parse_gnatprove_report A = .ok ra)
    (hb : parse_gnatprove_report B = .ok rb) :
    ∃ r, parse_gnatprove_report (A ++ B) = .ok r ∧
      r.units = ra.units ++ rb.units := by
  rw [parse_eq] at ha hb
  cases hA : runCore none A with
  | error e => rw [hA] at ha; simp at ha
  | ok pA =>
    obtain ⟨dA, cuA⟩ := pA
    rw [hA] at ha
    simp only [Except.ok.injEq] at ha
    cases hB : runCore none B with
    | error e => rw [hB] at hb; simp at hb
    | ok pB =>
      obtain ⟨dB, cuB⟩ := pB
      rw [hB] at hb
      simp only [Except.ok.injEq] at hb
      have hra : ra.units = dA ++ cuA.toList := by rw [← ha]
      have hrb : rb.units = dB ++ cuB.toList := by rw [← hb]
      rw [parse_eq, runCore_append, hA]
      dsimp only
      rcases runCore_transfer hB cuA with ⟨hc, hd, hrun⟩ | hrun
      · rw [hrun]
        dsimp only
        refine ⟨_, rfl, ?_⟩
        rw [hra, hrb, hc, hd]
        simp
      · rw [hrun]
        dsimp only
        refine ⟨_, rfl, ?_⟩
        rw [hra, hrb]
        simp [List.append_assoc]

/-- C4 counterexample: the clause `not proved, 7 checks out of 3 proved`
is copied into the item unvalidated, producing a proved item with
`numProvedChecks = 7 > numChecks = 3`: the invariant
`numProvedChecks ≤ numChecks` does not hold. -/
theorem claim_C4_cex :
    parse_gnatprove_report
      [("in unit Bar, 1 subprograms and packages out of 1 analyzed").data,
       ("  Bar.F at bar.adb:3 not proved, 7 checks out of 3 proved").data] =
      .ok { numUnitsAnalyzed := none,
            units :=
              [{ name := "Bar".data, numAnalyzed := 1, numTotal := 1,
                 items :=
                   [{ name := "Bar.F".data, fileName := "bar.adb".data,
                      lineNumber := "3".data,
                      instFileName := none, instLineNumber := none,
                      suppressions := [],
                      numFlowErrors := 0, numFlowWarnings := 0,
                      numChecks := 3, numProvedChecks := 7,
                      flowAnalyzed := false, proved := true }] }] } ∧
    (3 : ℕ) < 7 :=
  ⟨rfl, by decide⟩

/-- C4 (amended): every proved item of a parsed report got its proof
fields from some input line: if that line carried no "not proved" clause
then `numProvedChecks = numChecks` (the fully-proved clause sets both to
the same captured count); if it carried a "not proved, P checks out of C
proved" clause then `numProvedChecks = P` and `numChecks = C` exactly as
captured — `P ≤ C` is not enforced, so `numProvedChecks ≤ numChecks` holds
only when the input counts satisfy it. -/
theorem claim_C4 (lines : List (List Char)) (r : Report)
    (h : parse_gnatprove_report lines = .ok r) :
    ∀ u ∈ r.units, ∀ it ∈ u.items, it.proved = true →
      ∃ l ∈ lines,
        (not_proved_re l = none ∧ it.numProvedChecks = it.numChecks) ∨
        (∃ p c, not_proved_re l = some (p, c) ∧
          it.numProvedChecks = natOfDigits p ∧ it.numChecks = natOfDigits c) := by
  rw [parse_eq] at h
  cases hrc : runCore none lines with
  | error e => rw [hrc] at h; simp at h
  | ok pr =>
    obtain ⟨d, cuF⟩ := pr
    rw [hrc] at h
    simp only [Except.ok.injEq] at h
    intro u hu it hit hpr
    have hru : r.units = d ++ cuF.toList := by rw [← h]
    have hmem : it ∈ d.flatMap Unit.items ++ optItems cuF := by
      rw [hru] at hu
      rcases List.mem_append.mp hu with h1 | h2
      · exact List.mem_append.mpr (Or.inl (List.mem_flatMap.mpr ⟨u, h1, hit⟩))
      · refine List.mem_append.mpr (Or.inr ?_)
        cases cuF with
        | none => simp [Option.toList] at h2
        | some u0 =>
          simp only [Option.toList, List.mem_singleton] at h2
          rw [h2] at hit
          exact hit
    rcases runCore_items hrc it hmem with ⟨it0, h0, _⟩ | ⟨l, hl, it0, hio, hpf⟩
    · simp [optItems] at h0
    · refine ⟨l, hl, ?_⟩
      unfold itemOfLine at hio
      obtain ⟨base, hbase, happ⟩ := Option.map_eq_some'.mp hio
      have hpf0 : provedFields it =
          (match not_proved_re l with
           | some (p, c) => (true, natOfDigits c, natOfDigits p)
           | none =>
             match proved_re l with
             | some c => (true, natOfDigits c, natOfDigits c)
             | none => (base.proved, base.numChecks, base.numProvedChecks)) := by
        rw [hpf, ← happ, applyClauses_fields l base]
      cases hn : not_proved_re l with
      | some pc =>
        obtain ⟨pp, cc⟩ := pc
        rw [hn] at hpf0
        right
        refine ⟨pp, cc, rfl, ?_, ?_⟩
        · have := congrArg (fun t => t.2.2) hpf0
          simpa [provedFields] using this
        · have := congrArg (fun t => t.2.1) hpf0
          simpa [provedFields] using this
      | none =>
        rw [hn] at hpf0
        cases hp : proved_re l with
        | some c =>
          rw [hp] at hpf0
          left
          refine ⟨rfl, ?_⟩
          have h1 := congrArg (fun t => t.2.1) hpf0
          have h2 := congrArg (fun t => t.2.2) hpf0
          simp only [provedFields] at h1 h2
          rw [h1, h2]
        | none =>
          rw [hp] at hpf0
          have hb := mkItemFromLine_init hbase
          have h1 := congrArg (fun t => t.1) hpf0
          simp only [provedFields] at h1
          rw [hpr, hb] at h1
          exact absurd h1 (by decide)

theorem claim_C4_witness :
    ∃ l ∈ [("in unit W4, 1 subprograms and packages out of 1 analyzed").data,
           ("  W4.P at w.adb:1 proved (2 checks)").data],
      (not_proved_re l = none ∧ (2 : ℕ) = 2) ∨
      (∃ p c, not_proved_re l = some (p, c) ∧
        (2 : ℕ) = natOfDigits p ∧ (2 : ℕ) = natOfDigits c) := by
  have h := claim_C4
    [("in unit W4, 1 subprograms and packages out of 1 analyzed").data,
     ("  W4.P at w.adb:1 proved (2 checks)").data]
    { numUnitsAnalyzed := none,
      units := [{ name := "W4".data, numAnalyzed := 1, numTotal := 1,
                  items := [{ name := "W4.P".data, fileName := "w.adb".data,
                              lineNumber := "1".data, instFileName := none,
                              instLineNumber := none, suppressions := [],
                              numFlowErrors := 0, numFlowWarnings := 0,
                              numChecks := 2, numProvedChecks := 2,
                              flowAnalyzed := false, proved := true }] }] }
    (by rfl)
  exact h _ (List.mem_singleton.mpr rfl) _ (List.mem_singleton.mpr rfl) (by rfl)

theorem claim_C9_witness :
    ∃ r, parse_gnatprove_report
        (["Analyzed 1 units".data,
          ("in unit WA, 1 subprograms and packages out of 1 analyzed").data] ++
         [("in unit WB9, 2 subprograms and packages out of 2 analyzed").data]) =
        .ok r ∧
      r.units = (Report.mk (some 1) [Unit.mk "WA".data 1 1 []]).units ++
        (Report.mk none [Unit.mk "WB9".data 2 2 []]).units :=
  claim_C9 _ _ _ _ (by rfl) (by rfl)

end Gnatprove
